import Mathlib

/-!
Verification of the World Bank data-engineering pipeline
(`src/api_fetcher.py`, `src/database.py`) against its specification.

The Python code is shallowly embedded: JSON payloads become the `Json`
inductive, Python builtins (`int`, `len`, truthiness, indexing, `dict.get`,
`list.extend`) become total Lean functions returning `Except PyErr _` where
the builtin can raise, and the two effectful boundaries are made explicit:

* the HTTP transport is an oracle `ℕ → Option Json` (attempt number or page
  number ↦ parsed JSON on success, `none` when the transport/parse step
  raises, matching `get`'s `except Exception` arm);
* the PostgreSQL store is a `DB` value holding the two staging tables, and
  the `INSERT … ON CONFLICT (country_iso3, year) DO UPDATE` statement is
  the `upsertRow` function applied in statement order (`execute_batch`
  executes the statements sequentially; the batching is only a round-trip
  optimisation).

Loops with data-dependent exit conditions (`while True` in
`fetch_indicator`) take a fuel parameter; `none` means the fuel ran out,
which is how non-termination of the source loop is observed.
-/

namespace WBPipeline

mutual
/-- Parsed JSON values as produced by `json.loads`: Python `None`, `bool`,
`int`, `float`, `str`, `list`, `dict` (string keys, already de-duplicated,
as `json.loads` keeps only the last binding per key). `float` is modelled
as a rational, which is exact for every value the claims exercise.
Arrays and objects carry their own list types (`JsonList`, `JsonFields`)
so that the type is a plain mutual inductive and every function over it is
structurally recursive, hence kernel-evaluable on concrete values; the
bridges `JsonList.ofList`/`toList` convert to ordinary lists. -/
inductive Json where
  | null : Json
  | bool (b : Bool) : Json
  | int (n : ℤ) : Json
  | float (q : ℚ) : Json
  | str (s : String) : Json
  | arr (xs : JsonList) : Json
  | obj (fields : JsonFields) : Json
inductive JsonList where
  | nil : JsonList
  | cons (head : Json) (tail : JsonList) : JsonList
inductive JsonFields where
  | nil : JsonFields
  | cons (key : String) (val : Json) (tail : JsonFields) : JsonFields
end

/-- Build a JSON array payload from a Lean list. -/
def JsonList.ofList : List Json → JsonList
  | [] => .nil
  | x :: xs => .cons x (JsonList.ofList xs)

/-- The elements of a JSON array as a Lean list. -/
def JsonList.toList : JsonList → List Json
  | .nil => []
  | .cons x xs => x :: xs.toList

/-- Number of elements of a JSON array. -/
def JsonList.length : JsonList → ℕ
  | .nil => 0
  | .cons _ xs => xs.length + 1

/-- The `i`-th element of a JSON array, if any. -/
def JsonList.getElem? : JsonList → ℕ → Option Json
  | .nil, _ => none
  | .cons x _, 0 => some x
  | .cons _ xs, i + 1 => xs.getElem? i

/-- Whether a JSON array is empty. -/
def JsonList.isNil : JsonList → Bool
  | .nil => true
  | .cons _ _ => false

/-- Build a JSON object payload from a Lean association list. -/
def JsonFields.ofList : List (String × Json) → JsonFields
  | [] => .nil
  | (k, v) :: fs => .cons k v (JsonFields.ofList fs)

/-- Number of keys of a JSON object. -/
def JsonFields.length : JsonFields → ℕ
  | .nil => 0
  | .cons _ _ fs => fs.length + 1

/-- Dict lookup: the value bound to `key`, if any. -/
def JsonFields.lookup : JsonFields → String → Option Json
  | .nil, _ => none
  | .cons k v fs, key => if k = key then some v else fs.lookup key

/-- The keys of a JSON object, in order. -/
def JsonFields.keyList : JsonFields → List String
  | .nil => []
  | .cons k _ fs => k :: fs.keyList

/-- Whether a JSON object is empty. -/
def JsonFields.isNil : JsonFields → Bool
  | .nil => true
  | .cons _ _ _ => false

/-- JSON array literal from a Lean list. -/
def jarr (xs : List Json) : Json := .arr (JsonList.ofList xs)

/-- JSON object literal from a Lean association list. -/
def jobj (fs : List (String × Json)) : Json := .obj (JsonFields.ofList fs)

mutual
/-- Structural equality test (Python `==` on parsed JSON values). -/
def Json.beq : Json → Json → Bool
  | .null, .null => true
  | .bool a, .bool b => decide (a = b)
  | .int a, .int b => decide (a = b)
  | .float a, .float b => decide (a = b)
  | .str a, .str b => decide (a = b)
  | .arr xs, .arr ys => JsonList.beq xs ys
  | .obj fs, .obj gs => JsonFields.beq fs gs
  | _, _ => false
def JsonList.beq : JsonList → JsonList → Bool
  | .nil, .nil => true
  | .cons x xs, .cons y ys => Json.beq x y && JsonList.beq xs ys
  | _, _ => false
def JsonFields.beq : JsonFields → JsonFields → Bool
  | .nil, .nil => true
  | .cons k v fs, .cons l w gs =>
      decide (k = l) && Json.beq v w && JsonFields.beq fs gs
  | _, _ => false
end

theorem Json.beq_iff_aux : ∀ n : ℕ,
    (∀ a b : Json, sizeOf a < n → (Json.beq a b = true ↔ a = b)) ∧
    (∀ xs ys : JsonList, sizeOf xs < n → (JsonList.beq xs ys = true ↔ xs = ys)) ∧
    (∀ fs gs : JsonFields, sizeOf fs < n → (JsonFields.beq fs gs = true ↔ fs = gs)) := by
  intro n
  induction n with
  | zero =>
    exact ⟨fun a b h => by omega, fun xs ys h => by omega, fun fs gs h => by omega⟩
  | succ n ih =>
    obtain ⟨ihJ, ihL, ihF⟩ := ih
    refine ⟨fun a b h => ?_, fun xs ys h => ?_, fun fs gs h => ?_⟩
    · cases a <;> cases b <;> try (simp [Json.beq]; done)
      · rename_i xs ys
        have := ihL xs ys (by simp at h; omega)
        simp [Json.beq, this]
      · rename_i fs gs
        have := ihF fs gs (by simp at h; omega)
        simp [Json.beq, this]
    · cases xs <;> cases ys <;> try (simp [JsonList.beq]; done)
      rename_i x xs y ys
      have h1 := ihJ x y (by simp at h; omega)
      have h2 := ihL xs ys (by simp at h; omega)
      simp [JsonList.beq, h1, h2]
    · cases fs <;> cases gs <;> try (simp [JsonFields.beq]; done)
      rename_i k v fs l w gs
      have h1 := ihJ v w (by simp at h; omega)
      have h2 := ihF fs gs (by simp at h; omega)
      simp [JsonFields.beq, h1, h2, and_assoc]

instance : DecidableEq Json :=
  fun a b => decidable_of_iff _ ((Json.beq_iff_aux (sizeOf a + 1)).1 a b (by omega))

/-- The Python exceptions the embedded code can raise. -/
inductive PyErr where
  | valueError : PyErr
  | typeError : PyErr
  | attributeError : PyErr
  | keyError : PyErr
  | indexError : PyErr
deriving DecidableEq

instance {ε α : Type} [DecidableEq ε] [DecidableEq α] : DecidableEq (Except ε α)
  | .ok a, .ok b => decidable_of_iff (a = b) (by simp)
  | .error e, .error f => decidable_of_iff (e = f) (by simp)
  | .ok _, .error _ => isFalse (fun h => Except.noConfusion h)
  | .error _, .ok _ => isFalse (fun h => Except.noConfusion h)

/-- Python truthiness (`bool(x)`) on parsed JSON values. -/
def pyTruthy : Json → Bool
  | .null => false
  | .bool b => b
  | .int n => decide (n ≠ 0)
  | .float q => decide (q ≠ 0)
  | .str s => decide (s ≠ "")
  | .arr xs => ! xs.isNil
  | .obj fields => ! fields.isNil

/-- `len(x)`: defined for strings, lists and dicts, `TypeError` otherwise. -/
def pyLen : Json → Except PyErr ℕ
  | .str s => .ok s.length
  | .arr xs => .ok xs.length
  | .obj fields => .ok fields.length
  | _ => .error .typeError

/-- `x[i]` for a non-negative index `i`: list element (`IndexError` when out
of range), one-character string for strings, `KeyError` for dicts (a JSON
dict has string keys, so an integer subscript is never present),
`TypeError` otherwise. -/
def pyIndex : Json → ℕ → Except PyErr Json
  | .arr xs, i =>
      match xs.getElem? i with
      | some x => .ok x
      | none => .error .indexError
  | .str s, i =>
      match s.toList[i]? with
      | some c => .ok (.str (String.singleton c))
      | none => .error .indexError
  | .obj _, _ => .error .keyError
  | _, _ => .error .typeError

/-- `x.get(key, default)`: dict lookup with default; `AttributeError` when
`x` is not a dict. -/
def pyGetD : Json → String → Json → Except PyErr Json
  | .obj fields, key, d => .ok ((fields.lookup key).getD d)
  | _, _, _ => .error .attributeError

/-- `acc.extend(x)`: appends the elements of a list, the one-character
strings of a string, or the keys of a dict; `TypeError` for non-iterables. -/
def pyExtend (acc : List Json) : Json → Except PyErr (List Json)
  | .arr xs => .ok (acc ++ xs.toList)
  | .str s => .ok (acc ++ s.toList.map (fun c => Json.str (String.singleton c)))
  | .obj fields => .ok (acc ++ fields.keyList.map Json.str)
  | _ => .error .typeError

/-- Value of a nonempty string of decimal digits, `none` otherwise. -/
def digitsVal (cs : List Char) : Option ℕ :=
  if cs ≠ [] ∧ cs.all (·.isDigit) then
    some (cs.foldl (fun a c => a * 10 + (c.toNat - 48)) 0)
  else none

/-- Surrounding-whitespace stripping (`str.strip()` with no argument). -/
def pyStrip (cs : List Char) : List Char :=
  ((cs.dropWhile Char.isWhitespace).reverse.dropWhile Char.isWhitespace).reverse

/-- `int(s)` for a string `s`: strips surrounding whitespace, accepts an
optional sign followed by decimal digits, raises `ValueError` otherwise.
(Models the builtin; underscore digit separators and non-ASCII digits are
not modelled — no claim depends on them.) -/
def pyIntOfString (s : String) : Except PyErr ℤ :=
  match pyStrip s.toList with
  | '-' :: cs =>
      match digitsVal cs with
      | some n => .ok (-(n : ℤ))
      | none => .error .valueError
  | '+' :: cs =>
      match digitsVal cs with
      | some n => .ok (n : ℤ)
      | none => .error .valueError
  | cs =>
      match digitsVal cs with
      | some n => .ok (n : ℤ)
      | none => .error .valueError

/-- `int(x)`: identity on ints, truncation toward zero on floats, `0`/`1`
on bools, string parsing on strings (`ValueError` on failure), and
`TypeError` on `None`, lists and dicts. Models the builtin. -/
def pyInt : Json → Except PyErr ℤ
  | .int n => .ok n
  | .float q => .ok (if 0 ≤ q then q.floor else q.ceil)
  | .bool b => .ok (if b then 1 else 0)
  | .str s => pyIntOfString s
  | _ => .error .typeError

/-!
## `api_fetcher.py` — `get` (PageFetcher)

The transport (`urllib.request.urlopen` + `json.loads`) is an oracle
mapping the attempt number (1-based) to `some` parsed JSON on success or
`none` when the try-block raises. `get` is total: it catches every
transport exception, so its embedding returns a trace, never an error.
-/

/-- Observable behaviour of one `get` call: the returned value (`none` is
the Failure signal returned after exhausting retries), the number of
attempts performed, and the sequence of `time.sleep` waits in seconds. -/
structure GetTrace where
  result : Option Json
  attempts : ℕ
  waits : List ℚ
deriving DecidableEq

/-- The retry loop of `get` (`for attempt in range(1, retries + 1)`):
`remaining` counts the attempts still allowed, `attempt` is the 1-based
attempt number, `count` the attempts performed so far, `waits` the sleeps
performed so far.  On failure the code sleeps `backoff ** attempt` before
the next iteration (also after the final attempt — the sleep precedes the
loop condition check). -/
def getLoop (oracle : ℕ → Option Json) (backoff : ℚ) :
    ℕ → ℕ → ℕ → List ℚ → GetTrace
  | 0, _, count, waits => ⟨none, count, waits⟩
  | remaining + 1, attempt, count, waits =>
      match oracle attempt with
      | some j => ⟨some j, count + 1, waits⟩
      | none => getLoop oracle backoff remaining (attempt + 1) (count + 1)
          (waits ++ [backoff ^ attempt])

/-- `get(url, retries=3, backoff=2.0)` from `src/api_fetcher.py`
(lines 46–57), for a fixed url represented by its per-attempt oracle. -/
def get (oracle : ℕ → Option Json) (retries : ℕ) (backoff : ℚ) : GetTrace :=
  getLoop oracle backoff retries 1 0 []

/-!
## `api_fetcher.py` — `fetch_indicator` (IndicatorCollector)

The per-page oracle maps the page number to the result of `get` for that
page URL: `none` models `get` returning `None`, `some data` the parsed
JSON. The `while True` loop takes fuel; `none` overall means the fuel ran
out (observing divergence of the source loop).
-/

/-- Observable behaviour of one `fetch_indicator` call: the returned
record list, or the Python exception it raises, together with the page
numbers requested in order. -/
structure FetchResult where
  outcome : Except PyErr (List Json)
  pagesRequested : List ℕ
deriving DecidableEq

/-- The `while True` loop of `fetch_indicator` (`src/api_fetcher.py`
lines 67–81), one constructor-level step per Python operation:
`data = get(url)`; `if data is None or len(data) < 2: break`;
`meta, records = data[0], data[1]`; `if records: all_records.extend(records)`;
`if page >= int(meta.get("pages", 1)): break`; `page += 1`. -/
def fetchLoop (oracle : ℕ → Option Json) :
    ℕ → ℕ → List Json → List ℕ → Option FetchResult
  | 0, _, _, _ => none
  | fuel + 1, page, acc, reqs =>
      let reqs1 := reqs ++ [page]
      match oracle page with
      | none => some ⟨.ok acc, reqs1⟩
      | some data =>
          match pyLen data with
          | .error e => some ⟨.error e, reqs1⟩
          | .ok n =>
              if n < 2 then some ⟨.ok acc, reqs1⟩
              else
                match pyIndex data 0 with
                | .error e => some ⟨.error e, reqs1⟩
                | .ok meta =>
                    match pyIndex data 1 with
                    | .error e => some ⟨.error e, reqs1⟩
                    | .ok records =>
                        match
                          (if pyTruthy records then pyExtend acc records
                           else .ok acc) with
                        | .error e => some ⟨.error e, reqs1⟩
                        | .ok acc1 =>
                            match pyGetD meta "pages" (Json.int 1) with
                            | .error e => some ⟨.error e, reqs1⟩
                            | .ok pagesJ =>
                                match pyInt pagesJ with
                                | .error e => some ⟨.error e, reqs1⟩
                                | .ok total =>
                                    if (page : ℤ) ≥ total then
                                      some ⟨.ok acc1, reqs1⟩
                                    else
                                      fetchLoop oracle fuel (page + 1) acc1 reqs1

/-- `fetch_indicator` from `src/api_fetcher.py` (lines 62–83), for a fixed
(country, indicator) pair represented by its per-page oracle. -/
def fetch_indicator (oracle : ℕ → Option Json) (fuel : ℕ) : Option FetchResult :=
  fetchLoop oracle fuel 1 [] []

/-- `fetch_indicator` terminates on the given page-response sequence. -/
def fetchTerminates (oracle : ℕ → Option Json) : Prop :=
  ∃ fuel res, fetch_indicator oracle fuel = some res

/-- A well-formed page response `[metadata, records]` whose metadata
declares `total` pages. -/
def mkPage (total : ℤ) (recs : List Json) : Json :=
  jarr [jobj [("pages", Json.int total)], jarr recs]

/-- Page-response sequence in which every request succeeds and page `n`
declares `totals n` pages and carries records `recsOf n`. -/
def totalsOracle (totals : ℕ → ℤ) (recsOf : ℕ → List Json) :
    ℕ → Option Json :=
  fun n => some (mkPage (totals n) (recsOf n))

/-!
## `database.py` — normalization and upsert (RecordNormalizer, UpsertStore)

A stored row is the 7-tuple `save_raw_records` builds per record;
`fetched_at` (the single `datetime.now(timezone.utc)` taken at the top of
the call) is an abstract timestamp token passed in as `now : ℕ`.  The
PostgreSQL store is a `DB` value with the two staging tables; the `id`
SERIAL column is not modelled (no claim mentions it), a row's position in
the list plays its role.
-/

/-- The tuple `(iso3, name, year, value, ind_id, ind_name, now)` appended
to `rows` in `save_raw_records` (`src/database.py` line 147). `value` is
`Json.null` when the record's value is missing or `null`. -/
structure Row where
  country_iso3 : Json
  country_name : Json
  year : ℤ
  value : Json
  indicator_id : Json
  indicator_name : Json
  fetched_at : ℕ
deriving DecidableEq

/-- The natural key `(country_iso3, year)` of a row. -/
def keyOf (r : Row) : Json × ℤ := (r.country_iso3, r.year)

/-- The two staging tables of the store. -/
structure DB where
  raw_gdp_growth : List Row
  raw_unemployment : List Row
deriving DecidableEq

/-- The empty store (both tables empty, as after `init_db` on a fresh
database). -/
def emptyDB : DB := ⟨[], []⟩

/-- `TABLE_MAP.get(indicator_name)` (`src/database.py` lines 48–51). -/
def TABLE_MAP (indicator_name : String) : Option String :=
  if indicator_name = "gdp_growth" then some "raw_gdp_growth"
  else if indicator_name = "unemployment" then some "raw_unemployment"
  else none

/-- The rows of the named table. -/
def getTable (db : DB) (table : String) : List Row :=
  if table = "raw_gdp_growth" then db.raw_gdp_growth
  else if table = "raw_unemployment" then db.raw_unemployment
  else []

/-- Replace the rows of the named table. -/
def setTable (db : DB) (table : String) (rows : List Row) : DB :=
  if table = "raw_gdp_growth" then { db with raw_gdp_growth := rows }
  else if table = "raw_unemployment" then { db with raw_unemployment := rows }
  else db

/-- `rec.get("countryiso3code") or rec.get("country", {}).get("id", "")`
(`src/database.py` line 131): the direct ISO3 field if truthy, otherwise
the nested country identifier. -/
def resolvedIso3 (rec : Json) : Except PyErr Json := do
  let direct ← pyGetD rec "countryiso3code" Json.null
  if pyTruthy direct then pure direct
  else do
    let c ← pyGetD rec "country" (Json.obj .nil)
    pyGetD c "id" (Json.str "")

/-- `rec.get("country", {}).get("value", "")` (line 132). -/
def countryNameOf (rec : Json) : Except PyErr Json := do
  let c ← pyGetD rec "country" (Json.obj .nil)
  pyGetD c "value" (Json.str "")

/-- `rec.get("date", "")` (line 133). -/
def dateField (rec : Json) : Except PyErr Json :=
  pyGetD rec "date" (Json.str "")

/-- `rec.get("value")` (line 134); `Json.null` models Python `None`. -/
def valueField (rec : Json) : Except PyErr Json :=
  pyGetD rec "value" Json.null

/-- `rec.get("indicator", {}).get("id", "")` (line 135). -/
def indicatorIdOf (rec : Json) : Except PyErr Json := do
  let i ← pyGetD rec "indicator" (Json.obj .nil)
  pyGetD i "id" (Json.str "")

/-- `rec.get("indicator", {}).get("value", "")` (line 136). -/
def indicatorNameOf (rec : Json) : Except PyErr Json := do
  let i ← pyGetD rec "indicator" (Json.obj .nil)
  pyGetD i "value" (Json.str "")

/-- One iteration of the normalization loop of `save_raw_records`
(`src/database.py` lines 130–147): `.ok none` means the record was
skipped (`continue`), `.ok (some row)` that it was appended to `rows`,
`.error e` that the iteration raised (only `ValueError` from `int` is
caught by the source's `except ValueError`). -/
def normalizeRec (now : ℕ) (rec : Json) : Except PyErr (Option Row) := do
  let iso3 ← resolvedIso3 rec
  let name ← countryNameOf rec
  let year_str ← dateField rec
  let value ← valueField rec
  let ind_id ← indicatorIdOf rec
  let ind_name ← indicatorNameOf rec
  if ! pyTruthy iso3 || ! pyTruthy year_str then
    pure none
  else
    match pyInt year_str with
    | .ok year => pure (some ⟨iso3, name, year, value, ind_id, ind_name, now⟩)
    | .error .valueError => pure none
    | .error e => .error e

/-- The full normalization loop: the `rows` list built by
`save_raw_records` before the SQL stage, in input order. -/
def buildRows (now : ℕ) : List Json → Except PyErr (List Row)
  | [] => .ok []
  | rec :: rest =>
      match normalizeRec now rec with
      | .error e => .error e
      | .ok none => buildRows now rest
      | .ok (some row) =>
          match buildRows now rest with
          | .error e => .error e
          | .ok rows => .ok (row :: rows)

/-- One `INSERT … ON CONFLICT (country_iso3, year) DO UPDATE SET …`
statement (`src/database.py` lines 153–165): if a stored row with the same
key exists it is updated in place — and since the key columns coincide,
updating `country_name, value, indicator_id, indicator_name, fetched_at`
to the excluded row's values makes the stored row equal to the incoming
row — otherwise the incoming row is appended. -/
def upsertRow (t : List Row) (r : Row) : List Row :=
  if t.any (fun s => decide (keyOf s = keyOf r)) then
    t.map (fun s => if keyOf s = keyOf r then r else s)
  else t ++ [r]

/-- `execute_batch(cur, sql, rows, page_size=500)` (line 169): the upsert
statement executed once per row, in input order (batching only groups the
statements into round trips and does not reorder them). -/
def applyRows (t : List Row) (rows : List Row) : List Row :=
  rows.foldl upsertRow t

/-- `save_raw_records(indicator_name, records)` from `src/database.py`
(lines 109–172): routes through `TABLE_MAP` (raising `ValueError` for an
unknown indicator name, before any record processing), normalizes the
records, returns `0` rows written without touching the store when no row
is valid, and otherwise upserts the rows and returns `len(rows)`.
An `.error` result models an uncaught exception: the surrounding
`get_conn` context manager rolls the transaction back, so no store state
accompanies it. -/
def save_raw_records (now : ℕ) (indicator_name : String) (records : List Json)
    (db : DB) : Except PyErr (ℕ × DB) :=
  match TABLE_MAP indicator_name with
  | none => .error .valueError
  | some table =>
      match buildRows now records with
      | .error e => .error e
      | .ok rows =>
          if rows.isEmpty then .ok (0, db)
          else .ok (rows.length, setTable db table (applyRows (getTable db table) rows))

/-- Text of a stored `country_iso3` value as the `CHAR(3)` column holds it
(the rows the claims exercise store string codes; other JSON shapes do not
reach the read path in any claim). -/
def iso3Text : Json → String
  | .str s => s
  | _ => ""

/-- `ORDER BY country_iso3, year` comparison on stored rows. -/
def rowLe (a b : Row) : Bool :=
  iso3Text a.country_iso3 < iso3Text b.country_iso3 ||
    (iso3Text a.country_iso3 = iso3Text b.country_iso3 && a.year ≤ b.year)

/-- Insertion into a list sorted by `rowLe`. -/
def insertSorted (r : Row) : List Row → List Row
  | [] => [r]
  | x :: xs => if rowLe r x then r :: x :: xs else x :: insertSorted r xs

/-- Insertion sort by `rowLe`. -/
def sortRows (t : List Row) : List Row := t.foldr insertSorted []

/-- `load_raw_records(indicator_name)` from `src/database.py`
(lines 177–195): same `TABLE_MAP` routing and `ValueError`, then the
table's rows ordered by `(country_iso3, year)`. -/
def load_raw_records (indicator_name : String) (db : DB) :
    Except PyErr (List Row) :=
  match TABLE_MAP indicator_name with
  | none => .error .valueError
  | some table => .ok (sortRows (getTable db table))

/-- The key list of a table. -/
def keysOf (t : List Row) : List (Json × ℤ) := t.map keyOf

/-- A table whose keys are pairwise distinct — the invariant the
`UNIQUE (country_iso3, year)` constraint maintains on each staging table.
(An `abbrev`, so that it stays decidable on concrete tables.) -/
abbrev NodupKeys (t : List Row) : Prop := (keysOf t).Nodup

/-- Both staging tables satisfy the uniqueness invariant. -/
abbrev NodupDB (db : DB) : Prop :=
  NodupKeys db.raw_gdp_growth ∧ NodupKeys db.raw_unemployment

/-- Lookup of the stored row with the given natural key. -/
def lookupKey (t : List Row) (k : Json × ℤ) : Option Row :=
  t.find? (fun s => decide (keyOf s = k))

/-- The last row with key `k` in a batch — the write that wins. -/
def lastWithKey (rows : List Row) (k : Json × ℤ) : Option Row :=
  (rows.filter (fun r => decide (keyOf r = k))).getLast?

/-- The row a normalization outcome contributes to the batch: `some` for
an appended row, `none` for a skipped record or a raised exception. -/
def rowOf : Except PyErr (Option Row) → Option Row
  | .ok o => o
  | .error _ => none

/-- Whether a normalization outcome contributes a row to the batch. -/
def isRowSome : Except PyErr (Option Row) → Bool
  | .ok (some _) => true
  | _ => false

/-!
## Concrete page-response sequences and records used by the claims
-/

/-- Page-response sequence in which every request succeeds and page `n`
declares `n + 1` total pages — the declared total grows ahead of the page
index forever. -/
def growingOracle : ℕ → Option Json :=
  totalsOracle (fun n => (n : ℤ) + 1) (fun _ => [])

/-- Page-response sequence whose metadata carries `"pages": null` — a
declared page count that is present but not an integer. -/
def nullPagesOracle : ℕ → Option Json :=
  fun _ => some (jarr [jobj [("pages", Json.null)], jarr [Json.int 7]])

/-- Page-response sequence whose metadata lacks the `pages` key. -/
def missingPagesOracle (recsOf : ℕ → List Json) : ℕ → Option Json :=
  fun n => some (jarr [jobj [], jarr (recsOf n)])

/-- A well-formed raw API record for Kenya, year 2021, `value: null`. -/
def kenRec : Json := jobj [("countryiso3code", Json.str "KEN"),
  ("country", jobj [("id", Json.str "KE"), ("value", Json.str "Kenya")]),
  ("date", Json.str "2021"), ("value", Json.null),
  ("indicator", jobj [("id", Json.str "NY.GDP.MKTP.KD.ZG"),
    ("value", Json.str "GDP growth (annual %)")])]

/-- The row `kenRec` normalizes to at timestamp `now`. -/
def kenRow (now : ℕ) : Row :=
  ⟨Json.str "KEN", Json.str "Kenya", 2021, Json.null,
    Json.str "NY.GDP.MKTP.KD.ZG", Json.str "GDP growth (annual %)", now⟩

/-- A raw record whose `date` field is the integer `0`: the year is
present and `int(0)` parses, yet the record is skipped because `0` is
falsy. -/
def zeroYearRec : Json :=
  jobj [("countryiso3code", Json.str "KEN"), ("date", Json.int 0)]

/-- A raw KEN/2020 record carrying `value` `v`, used to build batches
with duplicate natural keys. -/
def kenYearRec (v : ℤ) : Json :=
  jobj [("countryiso3code", Json.str "KEN"), ("date", Json.str "2020"),
    ("value", Json.int v)]

/-- The row `kenYearRec v` normalizes to at timestamp `now`. -/
def kenYearRow (now : ℕ) (v : ℤ) : Row :=
  ⟨Json.str "KEN", Json.str "", 2020, Json.int v, Json.str "", Json.str "", now⟩

/-- The store after saving `[kenRec]` into `raw_gdp_growth` at time 0. -/
def kenDB : DB := ⟨[kenRow 0], []⟩

/-!
## Lemmas about `get`
-/

theorem getLoop_allFail (oracle : ℕ → Option Json) (backoff : ℚ)
    (h : ∀ a, oracle a = none) :
    ∀ (remaining attempt count : ℕ) (waits : List ℚ),
      getLoop oracle backoff remaining attempt count waits =
        ⟨none, count + remaining,
          waits ++ (List.range remaining).map (fun i => backoff ^ (attempt + i))⟩ := by
  intro remaining
  induction remaining with
  | zero => intro attempt count waits; simp [getLoop]
  | succ r ih =>
    intro attempt count waits
    have hstep : getLoop oracle backoff (r + 1) attempt count waits =
        getLoop oracle backoff r (attempt + 1) (count + 1)
          (waits ++ [backoff ^ attempt]) := by
      rw [getLoop, h attempt]
    rw [hstep, ih]
    simp only [GetTrace.mk.injEq, true_and]
    constructor
    · omega
    · rw [List.range_succ_eq_map, List.map_cons, List.map_map, List.append_assoc,
        List.singleton_append]
      congr 2
      exact List.map_congr_left (fun i hi => by
        simp only [Function.comp_apply]
        congr 1
        omega)

/-- C3: Retry protocol of `get(url, retries, backoff)`: when every
attempt's transport/parse step fails, `get` performs exactly `retries`
attempts, sleeps `backoff ^ attempt` seconds after each failed attempt
(for base `2.0` and the default `retries = 3` these are 2 s, 4 s, 8 s — see
the witness), and then returns the Failure signal `None`; `get` is a total
function of the oracle, so no exception reaches the caller. -/
theorem retry_exhaustion (oracle : ℕ → Option Json) (retries : ℕ) (backoff : ℚ)
    (h : ∀ a, oracle a = none) :
    get oracle retries backoff =
      ⟨none, retries, (List.range retries).map (fun i => backoff ^ (i + 1))⟩ := by
  rw [get, getLoop_allFail oracle backoff h]
  simp only [Nat.zero_add, List.nil_append, GetTrace.mk.injEq, true_and]
  exact List.map_congr_left (fun i hi => by congr 1; omega)

/-- Witness for C3 at the source defaults: an always-failing transport,
`retries = 3`, `backoff = 2.0` — exactly 3 attempts, waits 2 s, 4 s, 8 s,
result `None`. -/
theorem retry_exhaustion_witness :
    get (fun _ => none) 3 2 = ⟨none, 3, [2, 4, 8]⟩ := by
  rw [retry_exhaustion (fun _ => none) 3 2 (fun a => rfl)]
  decide

/-!
## Lemmas about `fetch_indicator`
-/

theorem JsonList.isNil_ofList (l : List Json) :
    (JsonList.ofList l).isNil = l.isEmpty := by
  cases l <;> rfl

theorem JsonList.toList_ofList (l : List Json) :
    (JsonList.ofList l).toList = l := by
  induction l with
  | nil => rfl
  | cons x xs ih => simp [JsonList.ofList, JsonList.toList, ih]

/-- One iteration of the pagination loop on a well-formed page: the page
is requested, its records are appended, and the loop stops or advances
according to `page >= int(meta.get("pages", 1))`. -/
theorem fetchLoop_totals_step (totals : ℕ → ℤ) (recsOf : ℕ → List Json)
    (fuel page : ℕ) (acc : List Json) (reqs : List ℕ) :
    fetchLoop (totalsOracle totals recsOf) (fuel + 1) page acc reqs =
      if (page : ℤ) ≥ totals page then
        some ⟨.ok (acc ++ recsOf page), reqs ++ [page]⟩
      else
        fetchLoop (totalsOracle totals recsOf) fuel (page + 1)
          (acc ++ recsOf page) (reqs ++ [page]) := by
  rw [fetchLoop]
  cases hrec : recsOf page with
  | nil =>
    simp [totalsOracle, mkPage, jarr, jobj, JsonList.ofList, JsonFields.ofList,
      pyLen, JsonList.length, pyIndex, JsonList.getElem?, pyTruthy,
      JsonList.isNil, pyGetD, JsonFields.lookup, pyInt, hrec]
  | cons r rs =>
    simp [totalsOracle, mkPage, jarr, jobj, JsonList.ofList, JsonFields.ofList,
      pyLen, JsonList.length, pyIndex, JsonList.getElem?, pyTruthy,
      JsonList.isNil, pyExtend, JsonList.toList, JsonList.toList_ofList, pyGetD,
      JsonFields.lookup, pyInt, hrec]

/-- On a constant declared total `P ≥ page`, the loop starting at `page`
requests exactly pages `page, page+1, …, P` and returns normally. -/
theorem fetchLoop_const_total (P : ℤ) (recsOf : ℕ → List Json) :
    ∀ (fuel page : ℕ) (acc : List Json) (reqs : List ℕ),
      1 ≤ page → page ≤ P.toNat → P.toNat - page < fuel →
      ∃ out, fetchLoop (totalsOracle (fun _ => P) recsOf) fuel page acc reqs =
        some ⟨.ok out,
          reqs ++ (List.range (P.toNat + 1 - page)).map (fun i => i + page)⟩ := by
  intro fuel
  induction fuel with
  | zero => intro page acc reqs h1 h2 h3; omega
  | succ f ih =>
    intro page acc reqs h1 h2 h3
    rw [fetchLoop_totals_step]
    by_cases hstop : (page : ℤ) ≥ P
    · rw [if_pos hstop]
      refine ⟨acc ++ recsOf page, ?_⟩
      have hpage : P.toNat + 1 - page = 1 := by omega
      rw [hpage]
      rw [show List.range 1 = [0] from rfl]
      simp
    · rw [if_neg hstop]
      have hlt : page < P.toNat := by omega
      obtain ⟨out, hout⟩ := ih (page + 1) (acc ++ recsOf page) (reqs ++ [page])
        (by omega) (by omega) (by omega)
      refine ⟨out, ?_⟩
      rw [hout]
      have hk : P.toNat + 1 - (page + 1) = P.toNat - page := by omega
      have hk1 : P.toNat + 1 - page = (P.toNat - page) + 1 := by omega
      rw [hk, hk1, List.range_succ_eq_map, List.map_cons, List.map_map,
        List.append_assoc, List.singleton_append]
      simp only [Option.some.injEq, FetchResult.mk.injEq, true_and]
      congr 1
      congr 1
      · omega
      · exact List.map_congr_left (fun i hi => by
          simp only [Function.comp_apply]
          omega)

/-- C2: with every page request succeeding and every page's metadata
declaring the same total `P`: for `P ≥ 1` the loop requests exactly pages
`1, …, P` in order and stops; for `P ≤ 0` it requests exactly page 1.
Stated for every fuel at least `P.toNat + 1`, i.e. once the fuel no longer
constrains the loop the source loop's behaviour is this one. -/
theorem pagination_exact_requests (P : ℤ) (recsOf : ℕ → List Json) (fuel : ℕ)
    (hfuel : P.toNat + 1 ≤ fuel) :
    (1 ≤ P →
      (fetch_indicator (totalsOracle (fun _ => P) recsOf) fuel).map
          FetchResult.pagesRequested =
        some ((List.range P.toNat).map (fun i => i + 1))) ∧
    (P ≤ 0 →
      (fetch_indicator (totalsOracle (fun _ => P) recsOf) fuel).map
          FetchResult.pagesRequested = some [1]) := by
  constructor
  · intro hP
    obtain ⟨out, hout⟩ := fetchLoop_const_total P recsOf fuel 1 [] []
      (le_refl 1) (by omega) (by omega)
    have h1 : P.toNat + 1 - 1 = P.toNat := by omega
    rw [fetch_indicator, hout]
    simp [h1]
  · intro hP
    match fuel, hfuel with
    | f + 1, _ =>
      have hcond : ((1 : ℕ) : ℤ) ≥ P := by omega
      rw [fetch_indicator, fetchLoop_totals_step, if_pos hcond]
      rfl

/-- Witness for C2 at `P = 2`: exactly pages `[1, 2]` are requested. -/
theorem pagination_exact_requests_witness :
    (fetch_indicator (totalsOracle (fun _ => 2) (fun _ => [])) 3).map
        FetchResult.pagesRequested = some [1, 2] :=
  (pagination_exact_requests 2 (fun _ => []) 3 (by decide)).1 (by decide)

theorem fetchLoop_growing_none :
    ∀ (fuel page : ℕ) (acc : List Json) (reqs : List ℕ),
      fetchLoop growingOracle fuel page acc reqs = none := by
  intro fuel
  induction fuel with
  | zero => intro page acc reqs; rfl
  | succ f ih =>
    intro page acc reqs
    rw [growingOracle, fetchLoop_totals_step,
      if_neg (by omega : ¬ ((page : ℕ) : ℤ) ≥ (page : ℤ) + 1), ← growingOracle]
    exact ih (page + 1) (acc ++ []) (reqs ++ [page])

/-- Counterexample to C5: on the response sequence in which page `n`
reports `n + 1` total pages (each page declaring one more page than the
current index) every request succeeds, yet `fetch_indicator` never
terminates — `fetchLoop` runs out of any amount of fuel. -/
theorem pagination_nontermination_counterexample :
    ¬ fetchTerminates growingOracle := by
  rintro ⟨fuel, res, hres⟩
  rw [fetch_indicator, fetchLoop_growing_none] at hres
  exact Option.noConfusion hres

theorem fetchLoop_bounded_total (totals : ℕ → ℤ) (recsOf : ℕ → List Json)
    (B : ℤ) (hB : ∀ n, totals n ≤ B) :
    ∀ (fuel page : ℕ) (acc : List Json) (reqs : List ℕ),
      1 ≤ fuel → 1 ≤ page → B.toNat + 2 ≤ fuel + page →
      (fetchLoop (totalsOracle totals recsOf) fuel page acc reqs).isSome = true := by
  intro fuel
  induction fuel with
  | zero => intro page acc reqs h1 h2 h3; omega
  | succ f ih =>
    intro page acc reqs h1 h2 h3
    rw [fetchLoop_totals_step]
    by_cases hstop : (page : ℤ) ≥ totals page
    · rw [if_pos hstop]; rfl
    · rw [if_neg hstop]
      have hpage := hB page
      exact ih (page + 1) (acc ++ recsOf page) (reqs ++ [page])
        (by omega) (by omega) (by omega)

/-- C5 as amended: `fetch_indicator` terminates whenever the declared
totals reported across the pages are bounded above by some `B` (fuel
`B.toNat + 1` already suffices) — in particular whenever every page
reports the same total; it does not terminate on every possible response
sequence (see the counterexample with strictly growing declared totals). -/
theorem pagination_termination_bounded (totals : ℕ → ℤ) (recsOf : ℕ → List Json)
    (B : ℤ) (hB : ∀ n, totals n ≤ B) :
    (fetch_indicator (totalsOracle totals recsOf) (B.toNat + 1)).isSome = true := by
  rw [fetch_indicator]
  exact fetchLoop_bounded_total totals recsOf B hB (B.toNat + 1) 1 [] []
    (by omega) (by omega) (by omega)

/-- Witness for the amended C5: all pages report total `2`, bound `B = 2`,
and the fetch terminates within fuel `3`. -/
theorem pagination_termination_bounded_witness :
    (fetch_indicator (totalsOracle (fun _ => 2) (fun _ => [Json.int 5])) 3).isSome
      = true :=
  pagination_termination_bounded (fun _ => 2) (fun _ => [Json.int 5]) 2
    (fun _ => le_refl 2)

/-- One iteration of the pagination loop on a page whose metadata lacks
the `pages` key: `meta.get("pages", 1)` falls back to `1`, so the loop
stops at page 1 after one request. -/
theorem fetchIndicator_missing_pages (recsOf : ℕ → List Json) (fuel : ℕ)
    (hfuel : 1 ≤ fuel) :
    fetch_indicator (missingPagesOracle recsOf) fuel =
      some ⟨.ok (recsOf 1), [1]⟩ := by
  match fuel, hfuel with
  | f + 1, _ =>
    rw [fetch_indicator, fetchLoop]
    cases hrec : recsOf 1 with
    | nil =>
      simp [missingPagesOracle, jarr, jobj, JsonList.ofList, JsonFields.ofList,
        pyLen, JsonList.length, pyIndex, JsonList.getElem?, pyTruthy,
        JsonList.isNil, pyGetD, JsonFields.lookup, pyInt, hrec]
    | cons r rs =>
      simp [missingPagesOracle, jarr, jobj, JsonList.ofList, JsonFields.ofList,
        pyLen, JsonList.length, pyIndex, JsonList.getElem?, pyTruthy,
        JsonList.isNil, pyExtend, JsonList.toList, JsonList.toList_ofList,
        pyGetD, JsonFields.lookup, pyInt, hrec]

/-- Counterexample to C4: a declared page count that is present but not
an integer (`"pages": null`) is not treated as one page — the `int()` call
raises `TypeError`, which `fetch_indicator` does not catch: on this
response the call raises instead of returning. -/
theorem pagination_anomaly_counterexample :
    fetch_indicator nullPagesOracle 2 = some ⟨.error PyErr.typeError, [1]⟩ := by
  decide

/-- C4 as amended: a missing declared page count, or one that converts to
an integer below 1, is handled permissively — `fetch_indicator` requests
exactly one page and returns normally; but a declared count whose value
`int()` cannot convert (such as `null`) makes `fetch_indicator` raise
(see the counterexample). -/
theorem pagination_anomaly_permissive (recsOf : ℕ → List Json) (fuel : ℕ)
    (hfuel : 1 ≤ fuel) :
    ((fetch_indicator (missingPagesOracle recsOf) fuel).map
        FetchResult.pagesRequested = some [1]) ∧
    (∀ k : ℤ, k ≤ 0 →
      (fetch_indicator (totalsOracle (fun _ => k) recsOf) fuel).map
          FetchResult.pagesRequested = some [1]) := by
  constructor
  · rw [fetchIndicator_missing_pages recsOf fuel hfuel]
    rfl
  · intro k hk
    exact (pagination_exact_requests k recsOf fuel (by omega)).2 hk

/-- Witness for the amended C4: metadata without `pages`, and metadata
declaring `0` pages, each produce exactly one page request. -/
theorem pagination_anomaly_permissive_witness :
    ((fetch_indicator (missingPagesOracle (fun _ => [Json.int 7])) 1).map
        FetchResult.pagesRequested = some [1]) ∧
    ((fetch_indicator (totalsOracle (fun _ => 0) (fun _ => [Json.int 7])) 1).map
        FetchResult.pagesRequested = some [1]) := by
  have h := pagination_anomaly_permissive (fun _ => [Json.int 7]) 1 (by decide)
  exact ⟨h.1, h.2 0 (by decide)⟩

/-!
## Lemmas about the upsert store

`upsertRow` is one `ON CONFLICT DO UPDATE` statement; `applyRows` is the
batch. The development characterises the batch by key lookup
(`lookupKey_applyRows`: the last write to a key wins), shows the upsert
preserves the `UNIQUE (country_iso3, year)` invariant (`NodupKeys`), and
derives idempotence of re-applying the same batch.
-/

theorem getLast?_cons_or (x : Row) (l : List Row) :
    (x :: l).getLast? = l.getLast?.or (some x) := by
  induction l generalizing x with
  | nil => rfl
  | cons y ys ih =>
    calc (x :: y :: ys).getLast? = (y :: ys).getLast? := List.getLast?_cons_cons
      _ = ys.getLast?.or (some y) := ih y
      _ = (ys.getLast?.or (some y)).or (some x) := by
          rw [Option.or_assoc, Option.or_some]
      _ = ((y :: ys).getLast?).or (some x) := by rw [ih y]

theorem lookupKey_cons (s : Row) (t : List Row) (k : Json × ℤ) :
    lookupKey (s :: t) k =
      if keyOf s = k then some s else lookupKey t k := by
  by_cases h : keyOf s = k
  · rw [lookupKey, List.find?_cons_of_pos _ (by simp [h]), if_pos h]
  · rw [lookupKey, List.find?_cons_of_neg _ (by simp [h]), if_neg h]
    rfl

theorem lookupKey_map_update (t : List Row) (r : Row) :
    lookupKey (t.map (fun s => if keyOf s = keyOf r then r else s)) (keyOf r) =
      if t.any (fun s => decide (keyOf s = keyOf r)) = true then some r
      else none := by
  induction t with
  | nil => rfl
  | cons s rest ih =>
    by_cases hs : keyOf s = keyOf r
    · rw [List.map_cons, if_pos hs, lookupKey_cons, if_pos rfl]
      simp [List.any_cons, hs]
    · rw [List.map_cons, if_neg hs, lookupKey_cons, if_neg hs, ih]
      simp [List.any_cons, hs]

theorem lookupKey_map_update_ne (t : List Row) (r : Row) (k : Json × ℤ)
    (hk : k ≠ keyOf r) :
    lookupKey (t.map (fun s => if keyOf s = keyOf r then r else s)) k =
      lookupKey t k := by
  induction t with
  | nil => rfl
  | cons s rest ih =>
    by_cases hs : keyOf s = keyOf r
    · have h1 : ¬ (keyOf r = k) := fun he => hk he.symm
      have h2 : ¬ (keyOf s = k) := fun he => hk (by rw [← hs]; exact he.symm)
      rw [List.map_cons, if_pos hs, lookupKey_cons, if_neg h1,
        lookupKey_cons, if_neg h2, ih]
    · rw [List.map_cons, if_neg hs, lookupKey_cons, lookupKey_cons, ih]

theorem lookupKey_append_single (t : List Row) (r : Row) (k : Json × ℤ) :
    lookupKey (t ++ [r]) k =
      (lookupKey t k).or (if keyOf r = k then some r else none) := by
  induction t with
  | nil =>
    rw [List.nil_append, lookupKey_cons]
    by_cases h : keyOf r = k
    · rw [if_pos h, if_pos h]; rfl
    · rw [if_neg h, if_neg h]; rfl
  | cons s rest ih =>
    rw [List.cons_append, lookupKey_cons, lookupKey_cons]
    by_cases hs : keyOf s = k
    · rw [if_pos hs, if_pos hs, Option.or_some]
    · rw [if_neg hs, if_neg hs, ih]

theorem lookupKey_upsert (t : List Row) (r : Row) (k : Json × ℤ) :
    lookupKey (upsertRow t r) k =
      if keyOf r = k then some r else lookupKey t k := by
  rw [upsertRow]
  by_cases hpresent : t.any (fun s => decide (keyOf s = keyOf r)) = true
  · rw [if_pos hpresent]
    by_cases hk : keyOf r = k
    · rw [if_pos hk, ← hk, lookupKey_map_update, if_pos hpresent]
    · rw [if_neg hk, lookupKey_map_update_ne t r k (fun he => hk he.symm)]
  · rw [if_neg hpresent, lookupKey_append_single]
    by_cases hk : keyOf r = k
    · have hnone : lookupKey t k = none := by
        cases hfind : lookupKey t k with
        | none => rfl
        | some s =>
          exfalso
          apply hpresent
          rw [List.any_eq_true]
          refine ⟨s, List.mem_of_find?_eq_some hfind, ?_⟩
          have hpred := List.find?_some hfind
          simp only [decide_eq_true_eq] at hpred ⊢
          rw [hpred, hk]
      rw [hnone, if_pos hk]
      rfl
    · rw [if_neg hk, if_neg hk, Option.or_none]

theorem lastWithKey_cons (r : Row) (rest : List Row) (k : Json × ℤ) :
    lastWithKey (r :: rest) k =
      if keyOf r = k then (lastWithKey rest k).or (some r)
      else lastWithKey rest k := by
  rw [lastWithKey, List.filter_cons]
  by_cases hk : keyOf r = k
  · rw [if_pos (by simp [hk]), getLast?_cons_or, if_pos hk, lastWithKey]
  · rw [if_neg (by simp [hk]), if_neg hk, lastWithKey]

theorem lookupKey_applyRows (rows : List Row) :
    ∀ (t : List Row) (k : Json × ℤ),
      lookupKey (applyRows t rows) k = (lastWithKey rows k).or (lookupKey t k) := by
  induction rows with
  | nil =>
    intro t k
    rw [applyRows, List.foldl_nil, lastWithKey, List.filter_nil]
    rfl
  | cons r rest ih =>
    intro t k
    show lookupKey (applyRows (upsertRow t r) rest) k = _
    rw [ih, lookupKey_upsert, lastWithKey_cons]
    by_cases hk : keyOf r = k
    · rw [if_pos hk, if_pos hk, Option.or_assoc, Option.or_some]
    · rw [if_neg hk, if_neg hk]

theorem keysOf_upsert_present (t : List Row) (r : Row)
    (h : t.any (fun s => decide (keyOf s = keyOf r)) = true) :
    keysOf (upsertRow t r) = keysOf t := by
  rw [upsertRow, if_pos h, keysOf, List.map_map, keysOf]
  refine List.map_congr_left (fun s _ => ?_)
  by_cases hs : keyOf s = keyOf r
  · simp [Function.comp, hs]
  · simp [Function.comp, hs]

theorem keysOf_upsert_absent (t : List Row) (r : Row)
    (h : ¬ t.any (fun s => decide (keyOf s = keyOf r)) = true) :
    keysOf (upsertRow t r) = keysOf t ++ [keyOf r] := by
  rw [upsertRow, if_neg h, keysOf, List.map_append, keysOf]
  rfl

theorem nodup_upsert (t : List Row) (r : Row) (h : NodupKeys t) :
    NodupKeys (upsertRow t r) := by
  by_cases hpresent : t.any (fun s => decide (keyOf s = keyOf r)) = true
  · rw [NodupKeys, keysOf_upsert_present t r hpresent]
    exact h
  · rw [NodupKeys, keysOf_upsert_absent t r hpresent, List.nodup_append]
    refine ⟨h, List.nodup_singleton _, fun k hk hk1 => ?_⟩
    apply hpresent
    rw [List.any_eq_true]
    rw [keysOf, List.mem_map] at hk
    obtain ⟨s, hs, hkey⟩ := hk
    rw [List.mem_singleton] at hk1
    exact ⟨s, hs, by simp [hkey, hk1]⟩

theorem nodup_applyRows (rows : List Row) :
    ∀ t : List Row, NodupKeys t → NodupKeys (applyRows t rows) := by
  induction rows with
  | nil => intro t h; exact h
  | cons r rest ih =>
    intro t h
    show NodupKeys (applyRows (upsertRow t r) rest)
    exact ih _ (nodup_upsert t r h)

theorem lookupKey_eq_none_iff (t : List Row) (k : Json × ℤ) :
    lookupKey t k = none ↔ k ∉ keysOf t := by
  rw [lookupKey, List.find?_eq_none, keysOf]
  simp

theorem keysOf_applyRows_covered (rows : List Row) :
    ∀ t : List Row, (∀ r ∈ rows, keyOf r ∈ keysOf t) →
      keysOf (applyRows t rows) = keysOf t := by
  induction rows with
  | nil => intro t _; rfl
  | cons r rest ih =>
    intro t h
    have hr : keyOf r ∈ keysOf t := h r (List.mem_cons_self r rest)
    have hany : t.any (fun s => decide (keyOf s = keyOf r)) = true := by
      rw [List.any_eq_true]
      rw [keysOf, List.mem_map] at hr
      obtain ⟨s, hs, hkey⟩ := hr
      exact ⟨s, hs, by simp [hkey]⟩
    show keysOf (applyRows (upsertRow t r) rest) = keysOf t
    rw [ih (upsertRow t r) ?_, keysOf_upsert_present t r hany]
    intro x hx
    rw [keysOf_upsert_present t r hany]
    exact h x (List.mem_cons_of_mem r hx)

theorem key_mem_applyRows (rows t : List Row) (r : Row) (hr : r ∈ rows) :
    keyOf r ∈ keysOf (applyRows t rows) := by
  have hne : rows.filter (fun s => decide (keyOf s = keyOf r)) ≠ [] := by
    intro hnil
    have : r ∈ rows.filter (fun s => decide (keyOf s = keyOf r)) :=
      List.mem_filter.2 ⟨hr, by simp⟩
    rw [hnil] at this
    exact List.not_mem_nil r this
  obtain ⟨s, hs⟩ := Option.isSome_iff_exists.1 (List.getLast?_isSome.2 hne)
  have hlook := lookupKey_applyRows rows t (keyOf r)
  rw [lastWithKey] at hlook
  rw [hs, Option.or_some] at hlook
  by_contra hmem
  rw [← lookupKey_eq_none_iff] at hmem
  rw [hmem] at hlook
  exact Option.noConfusion hlook

theorem table_ext : ∀ t1 t2 : List Row, NodupKeys t1 → keysOf t1 = keysOf t2 →
    (∀ k, lookupKey t1 k = lookupKey t2 k) → t1 = t2 := by
  intro t1
  induction t1 with
  | nil =>
    intro t2 _ hkeys _
    cases t2 with
    | nil => rfl
    | cons y ys => exact absurd hkeys (by simp [keysOf])
  | cons x xs ih =>
    intro t2 hnd hkeys hlook
    cases t2 with
    | nil => exact absurd hkeys (by simp [keysOf])
    | cons y ys =>
      rw [keysOf, keysOf, List.map_cons, List.map_cons] at hkeys
      injection hkeys with hkey hkeys
      have hx : x = y := by
        have h1 := hlook (keyOf x)
        rw [lookupKey_cons, if_pos rfl, lookupKey_cons, if_pos hkey.symm] at h1
        exact Option.some.inj h1
      subst hx
      have hndtail : NodupKeys xs := by
        rw [NodupKeys, keysOf, List.map_cons, List.nodup_cons] at hnd
        exact hnd.2
      have hhead : keyOf x ∉ keysOf xs := by
        rw [NodupKeys, keysOf, List.map_cons, List.nodup_cons] at hnd
        exact hnd.1
      congr 1
      apply ih ys hndtail hkeys
      intro k
      by_cases hk : keyOf x = k
      · rw [← hk]
        have h1 : lookupKey xs (keyOf x) = none :=
          (lookupKey_eq_none_iff xs (keyOf x)).2 hhead
        have h2 : lookupKey ys (keyOf x) = none :=
          (lookupKey_eq_none_iff ys (keyOf x)).2 (by rw [keysOf, ← hkeys]; exact hhead)
        rw [h1, h2]
      · have h1 := hlook k
        rw [lookupKey_cons, if_neg hk, lookupKey_cons, if_neg hk] at h1
        exact h1

/-- Re-applying a batch to a table that already absorbed it is a no-op:
each statement overwrites the stored row with the same values. -/
theorem applyRows_idem (t rows : List Row) (h : NodupKeys t) :
    applyRows (applyRows t rows) rows = applyRows t rows := by
  have hnd : NodupKeys (applyRows t rows) := nodup_applyRows rows t h
  apply table_ext _ _ (nodup_applyRows rows _ hnd)
  · exact keysOf_applyRows_covered rows _ (fun r hr => key_mem_applyRows rows t r hr)
  · intro k
    rw [lookupKey_applyRows, lookupKey_applyRows]
    cases lastWithKey rows k with
    | none => rfl
    | some s => rw [Option.or_some, Option.or_some]

/-!
## Lemmas about normalization and `save_raw_records`
-/

theorem buildRows_all_ok (now : ℕ) :
    ∀ recs : List Json, (∀ rec ∈ recs, ∃ o, normalizeRec now rec = .ok o) →
      buildRows now recs =
        .ok (recs.filterMap (fun rec => rowOf (normalizeRec now rec))) := by
  intro recs
  induction recs with
  | nil => intro _; rfl
  | cons rec rest ih =>
    intro h
    obtain ⟨o, ho⟩ := h rec (List.mem_cons_self rec rest)
    have hrest := ih (fun x hx => h x (List.mem_cons_of_mem rec hx))
    rw [buildRows, ho]
    cases o with
    | none => rw [List.filterMap_cons, ho]; exact hrest
    | some row =>
      rw [hrest, List.filterMap_cons, ho]
      rfl

theorem buildRows_length (now : ℕ) :
    ∀ (recs : List Json) (rows : List Row), buildRows now recs = .ok rows →
      rows.length = recs.countP (fun rec => isRowSome (normalizeRec now rec)) := by
  intro recs
  induction recs with
  | nil =>
    intro rows h
    rw [buildRows] at h
    cases h
    rfl
  | cons rec rest ih =>
    intro rows h
    rw [buildRows] at h
    rw [List.countP_cons]
    cases hn : normalizeRec now rec with
    | error e => rw [hn] at h; exact Except.noConfusion h
    | ok o =>
      rw [hn] at h
      cases o with
      | none =>
        rw [ih rows h]
        simp [isRowSome]
      | some row =>
        cases hrest : buildRows now rest with
        | error e => rw [hrest] at h; exact Except.noConfusion h
        | ok rows' =>
          rw [hrest] at h
          cases h
          rw [List.length_cons, ih rows' hrest]
          simp [isRowSome]

theorem TABLE_MAP_cases (name tbl : String) (h : TABLE_MAP name = some tbl) :
    (name = "gdp_growth" ∧ tbl = "raw_gdp_growth") ∨
    (name = "unemployment" ∧ tbl = "raw_unemployment") := by
  rw [TABLE_MAP] at h
  by_cases h1 : name = "gdp_growth"
  · rw [if_pos h1] at h
    exact Or.inl ⟨h1, (Option.some.inj h).symm⟩
  · rw [if_neg h1] at h
    by_cases h2 : name = "unemployment"
    · rw [if_pos h2] at h
      exact Or.inr ⟨h2, (Option.some.inj h).symm⟩
    · rw [if_neg h2] at h
      exact Option.noConfusion h

theorem getTable_setTable_same (db : DB) (tbl : String) (rows : List Row)
    (h : tbl = "raw_gdp_growth" ∨ tbl = "raw_unemployment") :
    getTable (setTable db tbl rows) tbl = rows := by
  rcases h with h | h <;> subst h <;> simp [getTable, setTable]

theorem nodupDB_getTable (db : DB) (tbl : String) (h : NodupDB db)
    (htbl : tbl = "raw_gdp_growth" ∨ tbl = "raw_unemployment") :
    NodupKeys (getTable db tbl) := by
  rcases htbl with h1 | h1 <;> subst h1 <;> simp [getTable]
  · exact h.1
  · exact h.2

theorem setTable_setTable (db : DB) (tbl : String) (rows : List Row) :
    setTable (setTable db tbl rows) tbl rows = setTable db tbl rows := by
  by_cases h1 : tbl = "raw_gdp_growth"
  · subst h1; simp [setTable]
  · by_cases h2 : tbl = "raw_unemployment"
    · subst h2; simp [setTable, h1]
    · simp [setTable, h1, h2]

theorem filter_map_update (r : Row) :
    ∀ t : List Row, NodupKeys t →
      (t.map (fun s => if keyOf s = keyOf r then r else s)).filter
          (fun s => decide (keyOf s = keyOf r)) =
        if t.any (fun s => decide (keyOf s = keyOf r)) = true then [r]
        else [] := by
  intro t
  induction t with
  | nil => intro _; rfl
  | cons s rest ih =>
    intro hnd
    have hndtail : NodupKeys rest := by
      rw [NodupKeys, keysOf, List.map_cons, List.nodup_cons] at hnd
      exact hnd.2
    have hhead : keyOf s ∉ keysOf rest := by
      rw [NodupKeys, keysOf, List.map_cons, List.nodup_cons] at hnd
      exact hnd.1
    rw [List.map_cons]
    by_cases hs : keyOf s = keyOf r
    · have hany : rest.any (fun x => decide (keyOf x = keyOf r)) = false := by
        rw [← Bool.not_eq_true, List.any_eq_true]
        rintro ⟨x, hx, hkey⟩
        simp only [decide_eq_true_eq] at hkey
        apply hhead
        rw [keysOf, List.mem_map]
        exact ⟨x, hx, by rw [hkey, ← hs]⟩
      rw [if_pos hs, List.filter_cons, if_pos (by simp), ih hndtail, hany]
      simp [List.any_cons, hs]
    · rw [if_neg hs, List.filter_cons, if_neg (by simp [hs]), ih hndtail]
      simp [List.any_cons, hs]

/-!
## The claims
-/

/-- C1: the upsert is last-write-wins and idempotent. First conjunct:
upserting a row whose `(country_iso3, year)` key is already stored leaves
exactly one stored row for that key, equal to the incoming row — the
`DO UPDATE SET` overwrites country name, value, indicator id/name and
fetch timestamp, and the key columns coincide by the conflict. Second
conjunct: running `save_raw_records` twice with identical input (records
and timestamp) returns the same count and leaves the same store as
running it once — the second write's values win and change nothing. The
store carries the invariant of its `UNIQUE (country_iso3, year)`
constraints (`NodupDB`). -/
theorem upsert_last_write_wins_idempotent :
    (∀ (t : List Row) (r : Row), NodupKeys t →
      (∃ s ∈ t, keyOf s = keyOf r) →
      (upsertRow t r).filter (fun s => decide (keyOf s = keyOf r)) = [r]) ∧
    (∀ (now : ℕ) (name : String) (records : List Json) (db : DB) (n : ℕ)
      (db1 : DB), NodupDB db →
      save_raw_records now name records db = .ok (n, db1) →
      save_raw_records now name records db1 = .ok (n, db1)) := by
  constructor
  · intro t r hnd hex
    have hany : t.any (fun s => decide (keyOf s = keyOf r)) = true := by
      rw [List.any_eq_true]
      obtain ⟨s, hs, hk⟩ := hex
      exact ⟨s, hs, by simp [hk]⟩
    rw [upsertRow, if_pos hany, filter_map_update r t hnd, if_pos hany]
  · intro now name records db n db1 hnd hsave
    rw [save_raw_records] at hsave
    split at hsave
    · exact Except.noConfusion hsave
    next tbl hmap =>
      split at hsave
      · exact Except.noConfusion hsave
      next rows hbuild =>
        simp only [save_raw_records, hmap, hbuild]
        split at hsave
        next hempty =>
          cases hsave
          rw [if_pos hempty]
        next hempty =>
          have htbl : tbl = "raw_gdp_growth" ∨ tbl = "raw_unemployment" := by
            rcases TABLE_MAP_cases name tbl hmap with ⟨_, h⟩ | ⟨_, h⟩
            · exact Or.inl h
            · exact Or.inr h
          cases hsave
          rw [if_neg hempty, getTable_setTable_same db tbl _ htbl,
            applyRows_idem _ rows (nodupDB_getTable db tbl hnd htbl),
            setTable_setTable]

/-- Witness for C1: a stored KEN/2021 row is overwritten by a new fetch of
the same key (exactly one row remains, the incoming one), and re-saving
`[kenRec]` over a store that already absorbed it returns the same count
and store. -/
theorem upsert_last_write_wins_idempotent_witness :
    (upsertRow [kenRow 0] (kenRow 5)).filter
        (fun s => decide (keyOf s = keyOf (kenRow 5))) = [kenRow 5] ∧
    save_raw_records 0 "gdp_growth" [kenRec] kenDB = .ok (1, kenDB) := by
  constructor
  · exact upsert_last_write_wins_idempotent.1 [kenRow 0] (kenRow 5) (by decide)
      ⟨kenRow 0, by decide, by decide⟩
  · exact upsert_last_write_wins_idempotent.2 0 "gdp_growth" [kenRec] emptyDB 1
      kenDB ⟨by decide, by decide⟩ (by decide)

/-- C8: for every indicator name outside the fixed two-entry `TABLE_MAP`,
`save_raw_records` and `load_raw_records` raise the configuration
`ValueError` — uniformly in the records and in the store, i.e. before any
record processing or storage I/O, and without any store state
accompanying the error (the transaction context rolls back) — while the
two recognized names route to their fixed tables, and they are the only
mapped names. -/
theorem unknown_indicator_fails_fast :
    (∀ name : String, TABLE_MAP name = none →
      (∀ (now : ℕ) (records : List Json) (db : DB),
        save_raw_records now name records db = .error .valueError) ∧
      (∀ db : DB, load_raw_records name db = .error .valueError)) ∧
    TABLE_MAP "gdp_growth" = some "raw_gdp_growth" ∧
    TABLE_MAP "unemployment" = some "raw_unemployment" ∧
    (∀ name tbl : String, TABLE_MAP name = some tbl →
      name = "gdp_growth" ∨ name = "unemployment") := by
  refine ⟨fun name hname => ⟨fun now records db => ?_, fun db => ?_⟩, rfl, rfl,
    fun name tbl h => ?_⟩
  · rw [save_raw_records, hname]
  · rw [load_raw_records, hname]
  · rcases TABLE_MAP_cases name tbl h with ⟨h1, _⟩ | ⟨h1, _⟩
    · exact Or.inl h1
    · exact Or.inr h1

/-- Witness for C8: the unmapped name `"population"` makes both the write
and the read path fail with the configuration error, on a non-empty store
and a non-empty record batch. -/
theorem unknown_indicator_fails_fast_witness :
    save_raw_records 0 "population" [kenRec] kenDB = .error .valueError ∧
    load_raw_records "population" kenDB = .error .valueError := by
  have h := unknown_indicator_fails_fast.1 "population" rfl
  exact ⟨h.1 0 [kenRec] kenDB, h.2 kenDB⟩

/-- C9: the count returned by `save_raw_records` equals the number of
input records that pass validation — records whose key already exists in
the table, or repeats within the batch, are counted too. Consequently the
returned count can exceed the net increase in the table's row count: the
second conjunct re-runs the save on a store that already holds the row —
the call returns count 1 while the table's row count does not change. -/
theorem save_count_counts_valid :
    (∀ (now : ℕ) (name : String) (records : List Json) (db : DB) (n : ℕ)
      (db1 : DB), save_raw_records now name records db = .ok (n, db1) →
      n = records.countP (fun rec => isRowSome (normalizeRec now rec))) ∧
    (save_raw_records 0 "gdp_growth" [kenRec] kenDB = .ok (1, kenDB) ∧
      kenDB.raw_gdp_growth.length - kenDB.raw_gdp_growth.length < 1) := by
  constructor
  · intro now name records db n db1 hsave
    rw [save_raw_records] at hsave
    split at hsave
    · exact Except.noConfusion hsave
    next tbl hmap =>
      split at hsave
      · exact Except.noConfusion hsave
      next rows hbuild =>
        have hlen := buildRows_length now records rows hbuild
        split at hsave
        next hempty =>
          cases hsave
          have hnil : rows = [] := by
            cases rows with
            | nil => rfl
            | cons a l => exact absurd hempty (by simp)
          subst hnil
          exact hlen
        next hempty =>
          cases hsave
          exact hlen
  · exact ⟨by decide, by decide⟩

/-- Witness for C9: one valid record gives count 1. -/
theorem save_count_counts_valid_witness :
    (1 : ℕ) = List.countP (fun rec => isRowSome (normalizeRec 0 rec)) [kenRec] :=
  save_count_counts_valid.1 0 "gdp_growth" [kenRec] emptyDB 1 kenDB (by decide)

/-- C10: within one `save_raw_records` call the valid rows are applied to
the table strictly in input order: whenever the indicator routes to table
`tbl` and the records normalize to the non-empty batch `rows` without an
exception, the call succeeds even when several rows share a natural key —
it returns `rows.length` and the store whose `tbl` table is the batch
applied statement-by-statement — and for every key the row stored
afterwards is the last row with that key in input order. -/
theorem batch_in_order_last_wins (now : ℕ) (name tbl : String)
    (records : List Json) (db : DB) (rows : List Row)
    (hmap : TABLE_MAP name = some tbl)
    (hbuild : buildRows now records = .ok rows) (hne : rows ≠ []) :
    save_raw_records now name records db =
      .ok (rows.length, setTable db tbl (applyRows (getTable db tbl) rows)) ∧
    (∀ (k : Json × ℤ) (r : Row), lastWithKey rows k = some r →
      lookupKey
          (getTable (setTable db tbl (applyRows (getTable db tbl) rows)) tbl) k
        = some r) := by
  have htbl : tbl = "raw_gdp_growth" ∨ tbl = "raw_unemployment" := by
    rcases TABLE_MAP_cases name tbl hmap with ⟨_, h⟩ | ⟨_, h⟩
    · exact Or.inl h
    · exact Or.inr h
  constructor
  · simp only [save_raw_records, hmap, hbuild]
    rw [if_neg (by cases rows with
        | nil => exact absurd rfl hne
        | cons a l => simp)]
  · intro k r hlast
    rw [getTable_setTable_same db tbl _ htbl, lookupKey_applyRows, hlast,
      Option.or_some]

/-- Witness for C10: a batch with two valid KEN/2020 records succeeds and
stores the second record's value. -/
theorem batch_in_order_last_wins_witness :
    save_raw_records 0 "gdp_growth" [kenYearRec 1, kenYearRec 2] emptyDB =
      .ok (2, setTable emptyDB "raw_gdp_growth"
        (applyRows (getTable emptyDB "raw_gdp_growth")
          [kenYearRow 0 1, kenYearRow 0 2])) ∧
    (∀ (k : Json × ℤ) (r : Row),
      lastWithKey [kenYearRow 0 1, kenYearRow 0 2] k = some r →
      lookupKey
          (getTable (setTable emptyDB "raw_gdp_growth"
            (applyRows (getTable emptyDB "raw_gdp_growth")
              [kenYearRow 0 1, kenYearRow 0 2])) "raw_gdp_growth") k
        = some r) :=
  batch_in_order_last_wins 0 "gdp_growth" "raw_gdp_growth"
    [kenYearRec 1, kenYearRec 2] emptyDB [kenYearRow 0 1, kenYearRow 0 2]
    rfl (by decide) (by decide)

/-- `normalizeRec` in terms of the six field extractions, when none of
them raises. -/
theorem normalizeRec_eq (now : ℕ) (rec : Json) (i nm d v id1 nm1 : Json)
    (hres : resolvedIso3 rec = .ok i) (hname : countryNameOf rec = .ok nm)
    (hdate : dateField rec = .ok d) (hvalue : valueField rec = .ok v)
    (hid : indicatorIdOf rec = .ok id1) (hnm : indicatorNameOf rec = .ok nm1) :
    normalizeRec now rec =
      if ! pyTruthy i || ! pyTruthy d then .ok none
      else
        match pyInt d with
        | .ok year => .ok (some ⟨i, nm, year, v, id1, nm1, now⟩)
        | .error .valueError => .ok none
        | .error e => .error e := by
  rw [normalizeRec, hres, hname, hdate, hvalue, hid, hnm]
  rfl

/-- Counterexample to C6: the record
`{countryiso3code: "KEN", date: 0}` resolves a non-empty ISO3 code, its
year field is present, and `int(0)` parses — yet `save_raw_records`'s
normalization loop skips it, because `0` is falsy and the code's test is
`if not iso3 or not year_str`, not a presence test. -/
theorem normalize_reject_counterexample :
    resolvedIso3 zeroYearRec = .ok (Json.str "KEN") ∧
    pyTruthy (Json.str "KEN") = true ∧
    dateField zeroYearRec = .ok (Json.int 0) ∧
    pyInt (Json.int 0) = .ok 0 ∧
    normalizeRec 0 zeroYearRec = .ok none := by
  refine ⟨by decide, by decide, by decide, by decide, by decide⟩

/-- C6 as amended: on a record whose six field extractions succeed (the
record and its `country`/`indicator` fields are dict-shaped where
accessed), the normalization loop skips the record **iff** the resolved
ISO3 value is falsy, or the year field is falsy (absent, empty string,
zero, …), or the year field is truthy but `int()` raises `ValueError`;
when the resolved ISO3 and the year field are truthy and `int()` parses,
the record produces exactly the expected row. At batch level, when no
record raises, the built batch is the normalized rows in input order —
each rejected record is merely excluded and siblings are unaffected.
(The original claim's conditions — "year absent or unparseable" — are
corrected to the code's falsiness test; and a record whose truthy year
field raises `TypeError` in `int()` aborts the batch rather than being
skipped, which the `iff` reflects by neither side holding.) -/
theorem normalize_reject_conditions (now : ℕ) :
    (∀ (rec : Json) (i nm d v id1 nm1 : Json),
      resolvedIso3 rec = .ok i → countryNameOf rec = .ok nm →
      dateField rec = .ok d → valueField rec = .ok v →
      indicatorIdOf rec = .ok id1 → indicatorNameOf rec = .ok nm1 →
      ((normalizeRec now rec = .ok none ↔
          (pyTruthy i = false ∨ pyTruthy d = false ∨
            pyInt d = .error .valueError)) ∧
        (∀ y : ℤ, pyTruthy i = true → pyTruthy d = true → pyInt d = .ok y →
          normalizeRec now rec = .ok (some ⟨i, nm, y, v, id1, nm1, now⟩)))) ∧
    (∀ records : List Json,
      (∀ rec ∈ records, ∃ o, normalizeRec now rec = .ok o) →
      buildRows now records =
        .ok (records.filterMap (fun rec => rowOf (normalizeRec now rec)))) := by
  constructor
  · intro rec i nm d v id1 nm1 hres hname hdate hvalue hid hnm
    rw [normalizeRec_eq now rec i nm d v id1 nm1 hres hname hdate hvalue hid hnm]
    constructor
    · by_cases hi : pyTruthy i
      · by_cases hd : pyTruthy d
        · rw [if_neg (by simp [hi, hd])]
          cases hpy : pyInt d with
          | ok y => simp [hi, hd, hpy]
          | error e => cases e <;> simp [hi, hd, hpy]
        · rw [if_pos (by simp [hd])]
          simp [hi, hd]
      · rw [if_pos (by simp [hi])]
        simp [hi]
    · intro y hi hd hpy
      rw [if_neg (by simp [hi, hd]), hpy]
  · exact buildRows_all_ok now

/-- Witness for the amended C6: a well-formed KEN/2020 record is neither
skipped nor raising — it produces exactly one row, in place. -/
theorem normalize_reject_conditions_witness :
    normalizeRec 0 (kenYearRec 1) = .ok (some (kenYearRow 0 1)) :=
  (((normalize_reject_conditions 0).1 (kenYearRec 1) (Json.str "KEN")
    (Json.str "") (Json.str "2020") (Json.int 1) (Json.str "") (Json.str "")
    (by decide) (by decide) (by decide) (by decide) (by decide) (by decide)).2
    2020 (by decide) (by decide) (by decide))

/-- C7: null value passthrough — a record whose `value` field reads back
as `None` (absent or JSON `null`) and which passes validation (truthy
resolved ISO3, truthy year parsed by `int()`) normalizes to exactly one
row whose value field is SQL `NULL` (`Json.null`): the record is not
dropped and the value is not coerced to a number. -/
theorem null_value_passthrough (now : ℕ) (rec : Json) (i nm d id1 nm1 : Json)
    (y : ℤ) (hres : resolvedIso3 rec = .ok i) (hi : pyTruthy i = true)
    (hname : countryNameOf rec = .ok nm) (hdate : dateField rec = .ok d)
    (hd : pyTruthy d = true) (hy : pyInt d = .ok y)
    (hvalue : valueField rec = .ok Json.null)
    (hid : indicatorIdOf rec = .ok id1) (hnm : indicatorNameOf rec = .ok nm1) :
    normalizeRec now rec = .ok (some ⟨i, nm, y, Json.null, id1, nm1, now⟩) := by
  rw [normalizeRec_eq now rec i nm d Json.null id1 nm1 hres hname hdate hvalue
    hid hnm, if_neg (by simp [hi, hd]), hy]

/-- Witness for C7: the KEN/2021 record with `value: null` is stored with
a null value. -/
theorem null_value_passthrough_witness :
    normalizeRec 0 kenRec = .ok (some (kenRow 0)) :=
  null_value_passthrough 0 kenRec (Json.str "KEN") (Json.str "Kenya")
    (Json.str "2021") (Json.str "NY.GDP.MKTP.KD.ZG")
    (Json.str "GDP growth (annual %)") 2021 (by decide) (by decide) (by decide)
    (by decide) (by decide) (by decide) (by decide) (by decide) (by decide)

end WBPipeline
